import Mathlib

/-!
Verification development for the ABIExtractor pipeline (`src/main.py`).

The Python source is shallowly embedded over `List Char` / `String`:
pure text-processing functions become Lean functions, the regex-driven
substitutions become explicit character scanners with the same left-to-right,
leftmost-match semantics, `json.loads` is modelled by a strict fueled
recursive-descent JSON parser, the RPC probe (`query_function`) and
`random.sample` are parameters, and Python exceptions are modelled with
`Except String`.  All definitions are executable.
-/

namespace ABIExtractor

/-! ### Character classes (ASCII fragments of Python's regex classes) -/

/-- Python regex `\w` on ASCII input: letters, digits and underscore. -/
def isWordChar (c : Char) : Bool :=
  c.isAlpha || c.isDigit || c = '_'

/-- First character of the key regex `[a-zA-Z_]`: a letter or underscore. -/
def isIdentStart (c : Char) : Bool :=
  c.isAlpha || c = '_'

/-- Python regex `\s` on ASCII input. -/
def isSpaceChar (c : Char) : Bool :=
  c = ' ' || c = '\t' || c = '\n' || c = '\r' || c = '\x0b' || c = '\x0c'

/-- `[0-9a-zA-Z]` from the contract-address regex (no underscore). -/
def isAlnumChar (c : Char) : Bool :=
  c.isAlpha || c.isDigit

/-! ### The key-quoting substitution of `repair_json`

`re.sub(r'(\b[a-zA-Z_]\w*\b)(?=\s*[:])', r'"\1"', s)` is embedded as a
left-to-right character machine.  A match starts at a word boundary
(`prev` tracks whether the previous consumed character was a word
character), requires an identifier-start character, consumes the maximal
run of word characters, and requires the lookahead `\s*[:]` right after
the run.  On a match the run is wrapped with `"` and scanning resumes at
the end of the run (the lookahead is not consumed); otherwise the engine
moves one character forward.  `inRun` flags that the machine is currently
inside a matched (already opened) identifier run. -/

/-- Lookahead test at a position: after the maximal `\w*` run starting
here, does `\s*[:]` follow? -/
def keyMatchAt (l : List Char) : Bool :=
  match (l.dropWhile isWordChar).dropWhile isSpaceChar with
  | ':' :: _ => true
  | _ => false

/-- The key-quoting scanner.  `prev` = previous consumed char is a word
char; `inRun` = currently inside a matched identifier run. -/
def qkGo : Bool → Bool → List Char → List Char
  | _, true, [] => ['"']
  | _, true, c :: rest =>
    if isWordChar c then c :: qkGo true true rest
    else '"' :: c :: qkGo false false rest
  | _, false, [] => []
  | prev, false, c :: rest =>
    if !prev && isIdentStart c && keyMatchAt (c :: rest) then
      '"' :: c :: qkGo true true rest
    else
      c :: qkGo (isWordChar c) false rest

/-- Line 176 of `main.py`: quote bare object keys. -/
def quoteKeys (l : List Char) : List Char :=
  qkGo false false l

/-- Line 178: `s.replace("'", '"')`. -/
def squoteToDquote (l : List Char) : List Char :=
  l.map (fun c => if c = '\x27' then '"' else c)

/-- Line 180: `s.replace("\\", "\\\\")` — double every backslash
(Python `str.replace` does not rescan the replacement text). -/
def doubleBackslashes (l : List Char) : List Char :=
  (l.map (fun c => if c = '\\' then ['\\', '\\'] else [c])).flatten

/-- Two-character token replacement, modelling `str.replace` for the
two-character patterns `!0` and `!1` (left-to-right, non-overlapping). -/
def replaceTok2 (a b : Char) (r : List Char) : List Char → List Char
  | [] => []
  | [c] => [c]
  | c :: d :: rest =>
    if c = a && d = b then r ++ replaceTok2 a b r rest
    else c :: replaceTok2 a b r (d :: rest)

/-- `repair_json` (lines 165–184 of `main.py`): quote bare keys, turn
single quotes into double quotes, double backslashes, then rewrite the
minifier booleans `!0`/`!1` to `true`/`false`. -/
def repair_json (l : List Char) : List Char :=
  replaceTok2 '!' '1' ['f','a','l','s','e']
    (replaceTok2 '!' '0' ['t','r','u','e']
      (doubleBackslashes (squoteToDquote (quoteKeys l))))

/-! ### Generic substring utilities (Python `in` and `str.replace`) -/

/-- Python `pat in s` (substring containment). -/
def containsSub (pat l : List Char) : Bool :=
  l.tails.any (fun t => pat.isPrefixOf t)

/-- Fueled `str.replace` for an arbitrary non-empty pattern:
left-to-right, non-overlapping, no rescan of the replacement. -/
def replaceAllFuel (pat rep : List Char) : Nat → List Char → List Char
  | 0, l => l
  | _ + 1, [] => []
  | fuel + 1, c :: rest =>
    if pat.isPrefixOf (c :: rest) && !pat.isEmpty then
      rep ++ replaceAllFuel pat rep fuel ((c :: rest).drop pat.length)
    else
      c :: replaceAllFuel pat rep fuel rest

/-- Python `s.replace(pat, rep)` for non-empty `pat`. -/
def replaceAll (pat rep l : List Char) : List Char :=
  replaceAllFuel pat rep l.length l

/-! ### `repair_broken_json` (lines 293–323)

`re.findall(r'"docs":(\[.*?\])', broken_json)` scans left-to-right for
the literal `"docs":[`, then matches non-greedily up to the first `]`;
`.` does not cross a newline.  Each returned group (brackets included)
is rewritten to a one-element array holding one escaped JSON string, and
substituted back with `str.replace` (all occurrences). -/

/-- Split at the first `]`: the characters before it and the rest after
it.  Fails on end of input or on a newline (regex `.` stops at `\n`). -/
def splitAtRB : List Char → Option (List Char × List Char)
  | [] => none
  | ']' :: r => some ([], r)
  | '\n' :: _ => none
  | c :: r =>
    match splitAtRB r with
    | some (a, b) => some (c :: a, b)
    | none => none

/-- The literal `"docs":[` that anchors the docs regex. -/
def docsMarker : List Char := ['"','d','o','c','s','"',':','[']

/-- Fueled scanner for `re.findall(r'"docs":(\[.*?\])', s)`: collects
every group-1 match (outer brackets included), resuming after each
match; on a failed non-greedy tail the engine advances one character. -/
def findDocsFuel : Nat → List Char → List (List Char)
  | 0, _ => []
  | _ + 1, [] => []
  | fuel + 1, c :: rest =>
    if docsMarker.isPrefixOf (c :: rest) then
      match splitAtRB ((c :: rest).drop 8) with
      | some (mid, after) => ('[' :: mid ++ [']']) :: findDocsFuel fuel after
      | none => findDocsFuel fuel rest
    else
      findDocsFuel fuel rest

/-- All `"docs":[...]` groups of a text, in order. -/
def findDocs (l : List Char) : List (List Char) :=
  findDocsFuel l.length l

/-- Inner helper `repair_docs_as_single_string` (lines 305–310): strip
the outer brackets, escape every `"` as `\"`, then collapse the
three-character sequence `\\n` to the two-character `\n`, and wrap the
result in double quotes. -/
def repairDocsSingle (docs : List Char) : List Char :=
  let content := (docs.drop 1).dropLast
  let escaped := (content.map (fun c => if c = '"' then ['\\', '"'] else [c])).flatten
  let collapsed := replaceAll ['\\','\\','n'] ['\\','n'] escaped
  '"' :: collapsed ++ ['"']

/-- `repair_broken_json` (lines 293–323): replace every found docs group
(in the order `findall` returned them, each via `str.replace` over the
whole current text) by `[` + repaired string + `]`. -/
def repair_broken_json (l : List Char) : List Char :=
  (findDocs l).foldl
    (fun acc docs => replaceAll docs ('[' :: repairDocsSingle docs ++ [']']) acc)
    l

/-! ### BraceScanner (lines 104–161) -/

/-- First index `≥ 0` in `l` where `pat` starts, like Python `str.find`
(returning `none` for `-1`). -/
def strFind (pat : List Char) : List Char → Option Nat
  | [] => if pat.isEmpty then some 0 else none
  | c :: rest =>
    if pat.isPrefixOf (c :: rest) then some 0
    else (strFind pat rest).map (· + 1)

/-- Python `s.find(pat, i)`. -/
def strFindFrom (pat l : List Char) (i : Nat) : Option Nat :=
  (strFind pat (l.drop i)).map (· + i)

/-- Python `s.rfind('{', 0, stop)`: the largest index `< stop` holding
an opening brace. -/
def rfindOpenBrace (l : List Char) (stop : Nat) : Option Nat :=
  ((List.range stop).filter (fun j => l.get? j = some '\x7b')).getLast?

/-- The quoted marker `"buildInfo"`. -/
def quotedMarker : List Char := '"' :: ('b' :: 'u' :: 'i' :: 'l' :: 'd' :: 'I' :: 'n' :: 'f' :: 'o' :: []) ++ ['"']

/-- The bare marker `buildInfo`. -/
def bareMarker : List Char := 'b' :: 'u' :: 'i' :: 'l' :: 'd' :: 'I' :: 'n' :: 'f' :: 'o' :: []

/-- One search step of `find_buildinfo_and_nearest_opening_brace`
(lines 117–133): quoted marker first, bare marker as fallback. -/
def findMarkerFrom (l : List Char) (i : Nat) : Option Nat :=
  match strFindFrom quotedMarker l i with
  | some b => some b
  | none => strFindFrom bareMarker l i

/-- Fueled loop of `find_buildinfo_and_nearest_opening_brace`: collect
`(openBraceOffset, markerOffset)` pairs; a marker with no preceding `{`
is skipped; continue from `markerOffset + 1`. -/
def buildInfoOccsFuel (l : List Char) : Nat → Nat → List (Nat × Nat)
  | 0, _ => []
  | fuel + 1, i =>
    match findMarkerFrom l i with
    | none => []
    | some b =>
      match rfindOpenBrace l b with
      | some o => (o, b) :: buildInfoOccsFuel l fuel (b + 1)
      | none => buildInfoOccsFuel l fuel (b + 1)

/-- `find_buildinfo_and_nearest_opening_brace(js_code)`. -/
def find_buildinfo_and_nearest_opening_brace (l : List Char) : List (Nat × Nat) :=
  buildInfoOccsFuel l (l.length + 1) 0

/-- Forward balanced-brace loop of `extract_matching_braces_content`
(lines 150–161).  The count is an `Int` exactly as in Python; the
accumulated content includes the current character; the scan returns
as soon as a `}` brings the count to zero, and yields `none` (Python
`None`) when the input ends first. -/
def braceGo : Int → List Char → List Char → Option (List Char)
  | _, _, [] => none
  | cnt, acc, c :: rest =>
    if c = '\x7b' then braceGo (cnt + 1) (acc ++ [c]) rest
    else if c = '\x7d' then
      if cnt - 1 = 0 then some (acc ++ [c]) else braceGo (cnt - 1) (acc ++ [c]) rest
    else braceGo cnt (acc ++ [c]) rest

/-- `extract_matching_braces_content(js_code, start_index)`. -/
def extract_matching_braces_content (l : List Char) (start : Nat) : Option (List Char) :=
  braceGo 0 [] (l.drop start)

/-! ### AddressExtractor (lines 212–225) -/

/-- The 13-character literal head of the address regex
`\berd1qqqqqqqqq[0-9a-zA-Z]+\b`. -/
def erdMarker : List Char :=
  'e' :: 'r' :: 'd' :: '1' :: 'q' :: 'q' :: 'q' :: 'q' :: 'q' :: 'q' :: 'q' :: 'q' :: 'q' :: []

/-- The zero-address filter literal of line 225 (`"erd1" + 15 q + "p" +
29 q`), exactly as written in the source. -/
def zeroMarker : List Char :=
  "erd1qqqqqqqqqqqqqqqpqqqqqqqqqqqqqqqqqqqqqqqqqqqqq".data

/-- Word-boundary condition after the greedy `[0-9a-zA-Z]+` run: the
next character, if any, must not be a word character; since the run is
maximal it can only fail on `_`, and regex backtracking cannot rescue
the match (any shorter split puts word characters on both sides). -/
def addrBoundaryOk : List Char → Bool
  | '_' :: _ => false
  | _ => true

/-- Fueled scanner for `re.findall(r'\berd1qqqqqqqqq[0-9a-zA-Z]+\b', s)`:
`prev` tracks whether the previous character is a word character (for
the leading `\b`); on a match the engine resumes after the matched
token, otherwise it advances one character. -/
def findAddrsFuel : Nat → Bool → List Char → List (List Char)
  | 0, _, _ => []
  | _ + 1, _, [] => []
  | fuel + 1, prev, c :: rest =>
    let l := c :: rest
    let tl := l.drop 13
    let run := tl.takeWhile isAlnumChar
    let after := tl.dropWhile isAlnumChar
    if !prev && erdMarker.isPrefixOf l && !run.isEmpty && addrBoundaryOk after then
      (erdMarker ++ run) :: findAddrsFuel fuel true after
    else
      findAddrsFuel fuel (isWordChar c) rest

/-- All regex matches of the contract-address shape, in order, with
duplicates. -/
def findAddrs (l : List Char) : List (List Char) :=
  findAddrsFuel l.length false l

/-- `extract_addresses(js_code)` (lines 212–225): every regex match that
does not contain the zero-address literal as a substring (Python
`not in`). -/
def extract_addresses (l : List Char) : List (List Char) :=
  (findAddrs l).filter (fun a => !containsSub zeroMarker a)

/-! ### A strict JSON model (for `json.loads`)

Numbers keep their literal token (the engine never interprets them),
objects keep their members in textual order, with later duplicate keys
shadowing earlier ones on lookup, as a Python `dict` built by
`json.loads` would. -/

inductive Json where
  | null : Json
  | bool (b : Bool) : Json
  | num (tok : List Char) : Json
  | str (s : List Char) : Json
  | arr (items : List Json) : Json
  | obj (fields : List (List Char × Json)) : Json
deriving Repr

/-- JSON whitespace accepted by `json.loads` between tokens. -/
def jWs (c : Char) : Bool :=
  c = ' ' || c = '\t' || c = '\n' || c = '\r'

/-- Skip inter-token whitespace. -/
def skipWs (l : List Char) : List Char :=
  l.dropWhile jWs

/-- Hexadecimal digit value. -/
def hexVal (c : Char) : Option Nat :=
  if c.isDigit then some (c.toNat - 48)
  else if 'a' ≤ c && c ≤ 'f' then some (c.toNat - 87)
  else if 'A' ≤ c && c ≤ 'F' then some (c.toNat - 70)
  else none

/-- Decode a string body after the opening quote: returns the decoded
characters and the input after the closing quote.  Escapes follow the
JSON grammar; unescaped control characters are rejected.  (A `\uXXXX`
escape is decoded as a single code point; surrogate pairing is not
modelled — none of the texts considered here use `\u`.) -/
def parseStrBodyFuel : Nat → List Char → Option (List Char × List Char)
  | 0, _ => none
  | _ + 1, [] => none
  | fuel + 1, c :: rest =>
    if c = '"' then some ([], rest)
    else if c = '\\' then
      match rest with
      | [] => none
      | e :: rest2 =>
        let dec : Option (Char × List Char) :=
          if e = '"' then some ('"', rest2)
          else if e = '\\' then some ('\\', rest2)
          else if e = '/' then some ('/', rest2)
          else if e = 'b' then some ('\x08', rest2)
          else if e = 'f' then some ('\x0c', rest2)
          else if e = 'n' then some ('\n', rest2)
          else if e = 'r' then some ('\r', rest2)
          else if e = 't' then some ('\t', rest2)
          else if e = 'u' then
            match rest2 with
            | h1 :: h2 :: h3 :: h4 :: rest3 =>
              match hexVal h1, hexVal h2, hexVal h3, hexVal h4 with
              | some a, some b, some c2, some d =>
                some (Char.ofNat (((a * 16 + b) * 16 + c2) * 16 + d), rest3)
              | _, _, _, _ => none
            | _ => none
          else none
        match dec with
        | some (ch, r) =>
          match parseStrBodyFuel fuel r with
          | some (s, r2) => some (ch :: s, r2)
          | none => none
        | none => none
    else if c.toNat < 32 then none
    else
      match parseStrBodyFuel fuel rest with
      | some (s, r2) => some (c :: s, r2)
      | none => none

/-- Decode a JSON string body after the opening quote. -/
def parseStrBody (l : List Char) : Option (List Char × List Char) :=
  parseStrBodyFuel (l.length + 1) l

/-- One or more decimal digits. -/
def digitsRun (l : List Char) : List Char × List Char :=
  (l.takeWhile Char.isDigit, l.dropWhile Char.isDigit)

/-- Lex a strict JSON number token (sign, integer part without leading
zeros, optional fraction, optional exponent); returns the token text and
the rest. -/
def parseNumTok (l : List Char) : Option (List Char × List Char) :=
  let (sign, l1) : List Char × List Char :=
    match l with
    | '-' :: r => (['-'], r)
    | _ => ([], l)
  match l1 with
  | [] => none
  | c :: r =>
    if !c.isDigit then none
    else
      let (ip, l2) : List Char × List Char :=
        if c = '0' then (['0'], r)
        else digitsRun (c :: r)
      let (fp, l3) : List Char × List Char :=
        match l2 with
        | '.' :: r2 =>
          let (ds, r3) := digitsRun r2
          if ds.isEmpty then ([], l2) else ('.' :: ds, r3)
        | _ => ([], l2)
      if l3.length < l2.length || (match l2 with | '.' :: _ => false | _ => true) then
        let (ep, l4) : List Char × List Char :=
          match l3 with
          | e :: r2 =>
            if e = 'e' || e = 'E' then
              let (es, r3) : List Char × List Char :=
                match r2 with
                | s :: r4 => if s = '+' || s = '-' then ([s], r4) else ([], r2)
                | [] => ([], r2)
              let (ds, r4) := digitsRun r3
              if ds.isEmpty then ([], l3) else (e :: es ++ ds, r4)
            else ([], l3)
          | [] => ([], l3)
        some (sign ++ ip ++ fp ++ ep, l4)
      else none

/-!
Strict recursive-descent JSON value parser, fueled.  `parseVal`
expects its input to start at a value (no leading whitespace);
`parseMembers` parses object members after the opening brace and
whitespace when the object is non-empty; `parseItems` likewise for
arrays.
-/
mutual

def parseVal : Nat → List Char → Option (Json × List Char)
  | 0, _ => none
  | _ + 1, [] => none
  | fuel + 1, c :: rest =>
    if c = '"' then
      match parseStrBody rest with
      | some (s, r) => some (Json.str s, r)
      | none => none
    else if c = 't' then
      if ['r','u','e'].isPrefixOf rest then some (Json.bool true, rest.drop 3) else none
    else if c = 'f' then
      if ['a','l','s','e'].isPrefixOf rest then some (Json.bool false, rest.drop 4) else none
    else if c = 'n' then
      if ['u','l','l'].isPrefixOf rest then some (Json.null, rest.drop 3) else none
    else if c = '\x7b' then
      match skipWs rest with
      | '\x7d' :: r => some (Json.obj [], r)
      | l2 => parseMembers fuel l2 []
    else if c = '[' then
      match skipWs rest with
      | ']' :: r => some (Json.arr [], r)
      | l2 => parseItems fuel l2 []
    else
      match parseNumTok (c :: rest) with
      | some (tok, r) => some (Json.num tok, r)
      | none => none

def parseMembers : Nat → List Char → List (List Char × Json) → Option (Json × List Char)
  | 0, _, _ => none
  | fuel + 1, l, acc =>
    match l with
    | '"' :: rest =>
      match parseStrBody rest with
      | some (k, r1) =>
        match skipWs r1 with
        | ':' :: r2 =>
          match parseVal fuel (skipWs r2) with
          | some (v, r3) =>
            match skipWs r3 with
            | ',' :: r4 => parseMembers fuel (skipWs r4) (acc ++ [(k, v)])
            | '\x7d' :: r4 => some (Json.obj (acc ++ [(k, v)]), r4)
            | _ => none
          | none => none
        | _ => none
      | none => none
    | _ => none

def parseItems : Nat → List Char → List Json → Option (Json × List Char)
  | 0, _, _ => none
  | fuel + 1, l, acc =>
    match parseVal fuel l with
    | some (v, r1) =>
      match skipWs r1 with
      | ',' :: r2 => parseItems fuel (skipWs r2) (acc ++ [v])
      | ']' :: r2 => some (Json.arr (acc ++ [v]), r2)
      | _ => none
    | none => none

end

/-- `json.loads`: parse one value with surrounding whitespace, requiring
the whole input to be consumed; `none` models a raised
`json.JSONDecodeError`. -/
def parseJson (l : List Char) : Option Json :=
  match parseVal (l.length + 1) (skipWs l) with
  | some (v, rest) => if (skipWs rest).isEmpty then some v else none
  | none => none

/-! ### `str.encode('unicode_escape').decode('utf-8')` (line 346) -/

/-- Lower-case hex digits of `n` padded to `w` places. -/
def hexChars (n w : Nat) : List Char :=
  (List.range w).reverse.map (fun i =>
    let d := n / 16 ^ i % 16
    if d < 10 then Char.ofNat (48 + d) else Char.ofNat (87 + d))

/-- `unicode_escape` of one character: backslashes are doubled, the
common control characters get their two-character escapes, other
non-printable or non-ASCII code points become `\xNN`/`\uNNNN`/`\UNNNNNNNN`,
and printable ASCII (quotes included) is unchanged. -/
def uescapeChar (c : Char) : List Char :=
  if c = '\\' then ['\\', '\\']
  else if c = '\n' then ['\\', 'n']
  else if c = '\r' then ['\\', 'r']
  else if c = '\t' then ['\\', 't']
  else if 32 ≤ c.toNat && c.toNat < 127 then [c]
  else if c.toNat < 256 then '\\' :: 'x' :: hexChars c.toNat 2
  else if c.toNat < 65536 then '\\' :: 'u' :: hexChars c.toNat 4
  else '\\' :: 'U' :: hexChars c.toNat 8

/-- Line 346: `abi_json_str.encode('unicode_escape').decode('utf-8')`. -/
def uescape (l : List Char) : List Char :=
  (l.map uescapeChar).flatten

/-- Lines 347–350: try `json.loads` on the escaped text, fall back to
`json.loads(repair_broken_json(...))` on the original; `none` means both
parses raised. -/
def loadAbi (l : List Char) : Option Json :=
  match parseJson (uescape l) with
  | some v => some v
  | none => parseJson (repair_broken_json l)

/-! ### MatchingEngine (`find_matching_contracts`, lines 326–375)

The RPC probe is a parameter `probe : addr → funcName → Except err
returnCode`, abstracting `query_function` together with the
`response["data"]["data"]["returnCode"]` field access; an `Except.error`
models any exception raised while issuing the probe.  `random.sample`
is a parameter `sample : population → k → Option chosen`; `none` models
the `ValueError` Python raises when `k` exceeds the population size.
A Python `dict` is modelled as an association list with overwriting
insert, and the side effects of the engine (probe calls, ABI exports,
relationship updates, the final `relationship.json` dump) are recorded
in an event trace. -/

/-- `NUMBER_OF_MATCHES` (line 10). -/
def NUMBER_OF_MATCHES : Nat := 5

/-- The rejection codes of lines 358 and 364. -/
def rejectionCodes : List String := ["function not found", "contract not found"]

/-- The relationship dictionary: contract address to exported ABI path. -/
def Dict : Type := List (List Char × List Char)

/-- Overwriting insert: the mapping of a Python `dict` after
`d[k] = v` (key order is not tracked, only the mapping). -/
def dinsert (k v : List Char) (d : Dict) : Dict :=
  (d.filter (fun p => decide (p.1 ≠ k))) ++ [(k, v)]

/-- Lookup in the relationship dictionary. -/
def dlookup (k : List Char) (d : Dict) : Option (List Char) :=
  (d.find? (fun p => decide (p.1 = k))).map (fun p => p.2)

/-- Keys of the dictionary. -/
def dkeys (d : Dict) : List (List Char) :=
  d.map (fun p => p.1)

/-- Side effects of one processing run. -/
inductive Event where
  | probeCall (addr func : List Char) : Event
  | exportAbi (path : List Char) : Event
  | record (addr path : List Char) : Event
  | serializeRel (d : List (List Char × List Char)) : Event
deriving DecidableEq

/-- The RPC probe capability. -/
def ProbeFn : Type := List Char → List Char → Except String String

/-- The `random.sample` capability. -/
def SampleFn : Type := List (List Char) → Nat → Option (List (List Char))

/-- A probe that never raises. -/
def okProbe (pc : List Char → List Char → String) : ProbeFn :=
  fun a f => Except.ok (pc a f)

/-- A deterministic admissible behaviour of `random.sample`: the first
`k` elements when `k` fits, `ValueError` otherwise. -/
def sampleTake : SampleFn :=
  fun pop k => if k ≤ pop.length then some (pop.take k) else none

/-- Lines 360–361: `random.sample(function_names[1:], NUMBER_OF_MATCHES)
if len(function_names) > NUMBER_OF_MATCHES - 1 else function_names[1:]`,
for `function_names = f0 :: rest`. -/
def confirmChoice (sample : SampleFn) (f0 : List Char) (rest : List (List Char)) :
    Option (List (List Char)) :=
  if (f0 :: rest).length > NUMBER_OF_MATCHES - 1 then sample rest NUMBER_OF_MATCHES
  else some rest

/-- The confirmation loop of lines 362–365: probe each sampled function,
counting the probes whose return code is outside the rejection set;
stops with the raised error if a probe raises.  Also returns the trace
of issued confirmation probes. -/
def confirmLoop (probe : ProbeFn) (addr : List Char) :
    List (List Char) → Except String Nat × List Event
  | [] => (Except.ok 0, [])
  | f :: fs =>
    match probe addr f with
    | Except.error e => (Except.error e, [Event.probeCall addr f])
    | Except.ok c =>
      match confirmLoop probe addr fs with
      | (Except.ok n, evs) =>
        (Except.ok (if rejectionCodes.contains c then n else n + 1),
         Event.probeCall addr f :: evs)
      | (Except.error e, evs) => (Except.error e, Event.probeCall addr f :: evs)

/-- The body of `for sc_address in sc_addresses` (lines 355–371) for one
address: probe the first endpoint name; on a rejection code do nothing
further for this pair; otherwise run the confirmation round and accept
(export the ABI and record `address → path`) exactly when every
confirmation probe counts.  `getPath` is the deferred computation of
`abi_json["name"]` and the export path, evaluated only on acceptance;
an `Except.error` anywhere models the corresponding Python exception. -/
def processAddress (probe : ProbeFn) (sample : SampleFn)
    (f0 : List Char) (rest : List (List Char)) (getPath : Except String (List Char))
    (d : Dict) (addr : List Char) : Except String Dict × List Event :=
  match probe addr f0 with
  | Except.error e => (Except.error e, [Event.probeCall addr f0])
  | Except.ok code =>
    if rejectionCodes.contains code then (Except.ok d, [Event.probeCall addr f0])
    else
      match confirmChoice sample f0 rest with
      | none => (Except.error ("ValueError"), [Event.probeCall addr f0])
      | some rfs =>
        match confirmLoop probe addr rfs with
        | (Except.error e, evs) => (Except.error e, Event.probeCall addr f0 :: evs)
        | (Except.ok cnt, evs) =>
          if cnt = rfs.length then
            match getPath with
            | Except.error e => (Except.error e, Event.probeCall addr f0 :: evs)
            | Except.ok p =>
              (Except.ok (dinsert addr p d),
               Event.probeCall addr f0 :: evs ++ [Event.exportAbi p, Event.record addr p])
          else (Except.ok d, Event.probeCall addr f0 :: evs)

/-- The address loop for one descriptor inside the `try` of line 344:
a raised exception stops the loop but keeps the dictionary updates and
events made so far (the Python `dict` is mutated in place). -/
def processAddressesT (probe : ProbeFn) (sample : SampleFn)
    (f0 : List Char) (rest : List (List Char)) (getPath : Except String (List Char)) :
    List (List Char) → Dict → List Event → Dict × List Event
  | [], d, evs => (d, evs)
  | a :: more, d, evs =>
    match processAddress probe sample f0 rest getPath d a with
    | (Except.ok d2, evs2) => processAddressesT probe sample f0 rest getPath more d2 (evs ++ evs2)
    | (Except.error _, evs2) => (d, evs ++ evs2)

/-- Python `dict` lookup on a parsed JSON object (later duplicate keys
shadow earlier ones, as in the `dict` built by `json.loads`). -/
def jGet (j : Json) (k : List Char) : Option Json :=
  match j with
  | Json.obj fields => fields.foldl (fun acc p => if p.1 = k then some p.2 else acc) none
  | _ => none

/-- Line 351: `[endpoint["name"] for endpoint in abi_json["endpoints"]]`.
Any missing field, non-array `endpoints`, non-object endpoint or
non-string name models the corresponding Python exception as `none`. -/
def getFunctionNames (j : Json) : Option (List (List Char)) :=
  match jGet j ('e' :: 'n' :: 'd' :: 'p' :: 'o' :: 'i' :: 'n' :: 't' :: 's' :: []) with
  | some (Json.arr items) =>
    items.mapM (fun it =>
      match jGet it ('n' :: 'a' :: 'm' :: 'e' :: []) with
      | some (Json.str s) => some s
      | _ => none)
  | _ => none

/-- Line 45: `name_field.replace(" ", "_")`. -/
def underscoreName (n : List Char) : List Char :=
  n.map (fun c => if c = ' ' then '_' else c)

/-- The export path of `export_abi_json` (lines 45–47):
`dir/<name with spaces underscored>.json`. -/
def abiPath (dir n : List Char) : List Char :=
  dir ++ '/' :: underscoreName n ++ ('.' :: 'j' :: 's' :: 'o' :: 'n' :: [])

/-- Lines 368–369, deferred: `abi_json["name"]` (a `KeyError` if absent
or not a string) and the export path. -/
def getPathE (dir : List Char) (j : Json) : Except String (List Char) :=
  match jGet j ('n' :: 'a' :: 'm' :: 'e' :: []) with
  | some (Json.str n) => Except.ok (abiPath dir n)
  | _ => Except.error ("KeyError")

/-- Parsing stage of one descriptor (lines 345–354): load the JSON text
(primary parse, then `repair_broken_json` fallback), extract the
endpoint names, and require a first one; `none` models any exception
before the address loop starts, which line 372 swallows. -/
def descrHead (dir : List Char) (s : List Char) :
    Option (List Char × List (List Char) × Except String (List Char)) :=
  match loadAbi s with
  | none => none
  | some j =>
    match getFunctionNames j with
    | none => none
    | some [] => none
    | some (f0 :: rest) => some (f0, rest, getPathE dir j)

/-- Processing of one candidate descriptor inside the `try`/`except` of
lines 343–373: any exception leaves the dictionary (with the partial
updates already made) and moves on to the next descriptor. -/
def processDescriptorT (probe : ProbeFn) (sample : SampleFn)
    (addrs : List (List Char)) (dir : List Char)
    (st : Dict × List Event) (s : List Char) : Dict × List Event :=
  match descrHead dir s with
  | none => st
  | some (f0, rest, gp) => processAddressesT probe sample f0 rest gp addrs st.1 st.2

/-- `find_matching_contracts` (lines 326–375): start from an empty
relationship dictionary, process every descriptor, then serialize the
relationship dictionary exactly once. -/
def find_matching_contracts (probe : ProbeFn) (sample : SampleFn)
    (abis : List (List Char)) (addrs : List (List Char)) (dir : List Char) :
    Dict × List Event :=
  let st := abis.foldl (processDescriptorT probe sample addrs dir) (([] : Dict), ([] : List Event))
  (st.1, st.2 ++ [Event.serializeRel st.1])

/-! ### The blob loop of `process_js_url` (lines 411–422)

For each `(openBraceOffset, markerOffset)` occurrence the code calls
`extract_matching_braces_content` and passes the result straight to
`repair_json`; when the extraction returned `None`, `re.sub` raises
`TypeError("expected string or bytes-like object")`, which nothing in
`process_js_url` catches. -/

/-- The blob-extraction loop: `Except.error` models the uncaught
`TypeError` raised by `repair_json(None)`. -/
def processBlobs (js : List Char) : Except String (List (List Char)) :=
  (find_buildinfo_and_nearest_opening_brace js).foldlM
    (fun acc occ =>
      match extract_matching_braces_content js occ.1 with
      | none => Except.error ("TypeError")
      | some content => Except.ok (acc ++ [repair_json content]))
    []

/-! ### Predicates and observers used by the statements below -/

/-- A position at which the key-quoting regex can match, ignoring the
word-boundary requirement: an identifier-start character whose maximal
word run is followed (through whitespace) by a colon. -/
def keyStartAt : List Char → Bool
  | [] => false
  | c :: rest => isIdentStart c && keyMatchAt (c :: rest)

/-- No position of `l` looks like a bare key followed by a colon: under
this condition the key-quoting substitution cannot fire anywhere. -/
def noKeySeed (l : List Char) : Bool :=
  l.tails.all (fun t => !keyStartAt t)

/-- Is this event an RPC probe? -/
def isProbeEvent : Event → Bool
  | Event.probeCall _ _ => true
  | _ => false

/-- The serialization events of a trace. -/
def serEvents (evs : List Event) : List Event :=
  evs.filter (fun e => match e with | Event.serializeRel _ => true | _ => false)

/-- The paths recorded for address `a` in a trace, in order. -/
def recordsFor (evs : List Event) (a : List Char) : List (List Char) :=
  evs.filterMap (fun e =>
    match e with
    | Event.record a2 p => if a2 = a then some p else none
    | _ => none)

/-! ### Concrete texts used by the counterexamples and scenarios -/

/-- A truncated source: a `buildInfo` marker whose enclosing brace is
never closed, preceded by one well-formed `buildInfo` blob. -/
def c3bad : List Char :=
  ("\x7b\x22buildInfo\x22x\x7d\x7b\x22buildInfo\x22").data

/-- Valid strict JSON with a colon inside a key string and an apostrophe
inside a value string: `\x7b"a:b":"it's"\x7d`. -/
def c5bad : List Char :=
  ("\x7b\x22a:b\x22:\x22it\x27s\x22\x7d").data

/-- The parse of `c5bad`. -/
def c5badVal : Json :=
  Json.obj [("a:b".data, Json.str ("it\x27s".data))]

/-- Ordinary strict JSON: every colon is preceded by a closing quote. -/
def c5good : List Char :=
  ("\x7b\x22a\x22: 10, \x22bc\x22: [true, false, null, \x22x y\x22], \x22d\x22: \x7b\x22e\x22: \x22f\x22\x7d\x7d").data

/-- The parse of `c5good`. -/
def c5goodVal : Json :=
  Json.obj [("a".data, Json.num ['1','0']),
            ("bc".data, Json.arr [Json.bool true, Json.bool false, Json.null,
                                  Json.str ("x y".data)]),
            ("d".data, Json.obj [("e".data, Json.str ['f'])])]

/-- A hand-edited descriptor text: two `docs` arrays holding freeform
text, the first with embedded quotes and a double-escaped newline. -/
def inp6 : List Char :=
  ("\x7b\x22name\x22:\x22Adder\x22,\x22endpoints\x22:[\x7b\x22name\x22:\x22add\x22,\x22docs\x22:[Sums \x22a\x22 and\\\\nreturns]\x7d,\x7b\x22name\x22:\x22sub\x22,\x22docs\x22:[Subtracts]\x7d]\x7d").data

/-- The text `repair_broken_json` produces for `inp6`. -/
def out6 : List Char :=
  ("\x7b\x22name\x22:\x22Adder\x22,\x22endpoints\x22:[\x7b\x22name\x22:\x22add\x22,\x22docs\x22:[\x22Sums \\\x22a\\\x22 and\\nreturns\x22]\x7d,\x7b\x22name\x22:\x22sub\x22,\x22docs\x22:[\x22Subtracts\x22]\x7d]\x7d").data

/-- The structure `out6` parses to: each `docs` field is a one-element
array holding the escaped freeform string. -/
def val6 : Json :=
  Json.obj [("name".data, Json.str ("Adder".data)),
            ("endpoints".data, Json.arr
              [Json.obj [("name".data, Json.str ("add".data)),
                         ("docs".data, Json.arr [Json.str ("Sums \x22a\x22 and\nreturns".data)])],
               Json.obj [("name".data, Json.str ("sub".data)),
                         ("docs".data, Json.arr [Json.str ("Subtracts".data)])]])]

/-- An address-shaped token strictly containing the zero-address filter
literal. -/
def zplus : List Char := zeroMarker ++ ['a']

/-- A descriptor whose only endpoint probe raises. -/
def badA : List Char :=
  ("\x7b\x22name\x22:\x22Bad\x22,\x22endpoints\x22:[\x7b\x22name\x22:\x22boom\x22\x7d]\x7d").data

/-- A descriptor with a single endpoint `g1`. -/
def goodA : List Char :=
  ("\x7b\x22name\x22:\x22Good\x22,\x22endpoints\x22:[\x7b\x22name\x22:\x22g1\x22\x7d]\x7d").data

/-- A probe that raises on `boom` and returns `ok` otherwise. -/
def probeX : ProbeFn :=
  fun _ f => if f = ('b' :: 'o' :: 'o' :: 'm' :: []) then Except.error ("RPCError") else Except.ok ("ok")

/-- A candidate address for the scenarios. -/
def addrA : List Char := "erdA".data

/-- An export directory for the scenarios. -/
def dirD : List Char := "exports/d".data

/-! ## Theorems -/

/-! ### Helper lemmas about the matching engine -/

theorem sampleTake_valueError : ∀ pop k, pop.length < k → sampleTake pop k = none := by
  intro pop k h
  simp only [sampleTake, if_neg (Nat.not_le.mpr h)]

theorem confirmLoop_okProbe (pc : List Char → List Char → String) (addr : List Char) :
    ∀ fs : List (List Char),
    confirmLoop (okProbe pc) addr fs
      = (Except.ok (fs.countP (fun f => !rejectionCodes.contains (pc addr f))),
         fs.map (Event.probeCall addr)) := by
  intro fs
  induction fs with
  | nil => rfl
  | cons f fs ih =>
    simp only [confirmLoop, okProbe, ih, List.countP_cons, List.map_cons]
    cases h : rejectionCodes.contains (pc addr f) <;> simp [h]

theorem pa_initial_reject (pc : List Char → List Char → String) (sample : SampleFn)
    (f0 : List Char) (rest : List (List Char)) (p : List Char) (d : Dict) (addr : List Char)
    (h : rejectionCodes.contains (pc addr f0) = true) :
    processAddress (okProbe pc) sample f0 rest (Except.ok p) d addr
      = (Except.ok d, [Event.probeCall addr f0]) := by
  have h2 : pc addr f0 ∈ rejectionCodes := by simpa using h
  simp [processAddress, okProbe, h2]

theorem pa_accept_eq (pc : List Char → List Char → String) (sample : SampleFn)
    (f0 : List Char) (rest : List (List Char)) (p : List Char) (d : Dict) (addr : List Char)
    (rfs : List (List Char))
    (hc : confirmChoice sample f0 rest = some rfs)
    (h0 : rejectionCodes.contains (pc addr f0) = false)
    (hall : ∀ f ∈ rfs, rejectionCodes.contains (pc addr f) = false) :
    processAddress (okProbe pc) sample f0 rest (Except.ok p) d addr
      = (Except.ok (dinsert addr p d),
         Event.probeCall addr f0 :: rfs.map (Event.probeCall addr)
           ++ [Event.exportAbi p, Event.record addr p]) := by
  have h0m : pc addr f0 ∉ rejectionCodes := by simpa using h0
  have hallm : ∀ a ∈ rfs, pc addr a ∉ rejectionCodes := fun a ha => by simpa using hall a ha
  simp [processAddress, okProbe, h0m, hc, confirmLoop_okProbe]
  exact hallm

theorem pa_reject_eq (pc : List Char → List Char → String) (sample : SampleFn)
    (f0 : List Char) (rest : List (List Char)) (p : List Char) (d : Dict) (addr : List Char)
    (rfs : List (List Char))
    (hc : confirmChoice sample f0 rest = some rfs)
    (h0 : rejectionCodes.contains (pc addr f0) = false)
    (g : List Char) (hg : g ∈ rfs)
    (hrej : rejectionCodes.contains (pc addr g) = true) :
    processAddress (okProbe pc) sample f0 rest (Except.ok p) d addr
      = (Except.ok d, Event.probeCall addr f0 :: rfs.map (Event.probeCall addr)) := by
  have h0m : pc addr f0 ∉ rejectionCodes := by simpa using h0
  have hne : ¬ ∀ a ∈ rfs, pc addr a ∉ rejectionCodes := by
    intro hcon
    exact hcon g hg (by simpa using hrej)
  simp [processAddress, okProbe, h0m, hc, confirmLoop_okProbe, hne]

theorem pa_accept_iff (pc : List Char → List Char → String) (sample : SampleFn)
    (f0 : List Char) (rest : List (List Char)) (p : List Char) (d : Dict) (addr : List Char)
    (rfs : List (List Char))
    (hc : confirmChoice sample f0 rest = some rfs)
    (h0 : rejectionCodes.contains (pc addr f0) = false) :
    (Event.record addr p ∈ (processAddress (okProbe pc) sample f0 rest (Except.ok p) d addr).2
      ↔ ∀ f ∈ rfs, rejectionCodes.contains (pc addr f) = false) := by
  constructor
  · intro hmem
    by_contra hnot
    push_neg at hnot
    obtain ⟨g, hg, hne⟩ := hnot
    have hrej : rejectionCodes.contains (pc addr g) = true := by
      cases h : rejectionCodes.contains (pc addr g)
      · exact absurd h hne
      · rfl
    rw [pa_reject_eq pc sample f0 rest p d addr rfs hc h0 g hg hrej] at hmem
    simp at hmem
  · intro hall
    rw [pa_accept_eq pc sample f0 rest p d addr rfs hc h0 hall]
    simp

/-! ### Helper lemmas about the relationship dictionary and event traces -/

theorem recordsFor_append (e1 e2 : List Event) (a : List Char) :
    recordsFor (e1 ++ e2) a = recordsFor e1 a ++ recordsFor e2 a := by
  unfold recordsFor
  exact List.filterMap_append e1 e2 _

theorem serEvents_append (e1 e2 : List Event) :
    serEvents (e1 ++ e2) = serEvents e1 ++ serEvents e2 := by
  unfold serEvents
  exact List.filter_append e1 e2

theorem recordsFor_probe_nil {evs : List Event} (h : evs.all isProbeEvent = true)
    (a : List Char) : recordsFor evs a = [] := by
  induction evs with
  | nil => rfl
  | cons e rest ih =>
    rw [List.all_cons, Bool.and_eq_true] at h
    cases e with
    | probeCall x y =>
      simp only [recordsFor, List.filterMap_cons]
      exact ih h.2
    | exportAbi p => exact absurd h.1 (by simp [isProbeEvent])
    | record x y => exact absurd h.1 (by simp [isProbeEvent])
    | serializeRel x => exact absurd h.1 (by simp [isProbeEvent])

theorem serEvents_probe_nil {evs : List Event} (h : evs.all isProbeEvent = true) :
    serEvents evs = [] := by
  induction evs with
  | nil => rfl
  | cons e rest ih =>
    rw [List.all_cons, Bool.and_eq_true] at h
    cases e with
    | probeCall x y =>
      simp only [serEvents, List.filter_cons]
      exact ih h.2
    | exportAbi p => exact absurd h.1 (by simp [isProbeEvent])
    | record x y => exact absurd h.1 (by simp [isProbeEvent])
    | serializeRel x => exact absurd h.1 (by simp [isProbeEvent])

theorem confirmLoop_all_probe (probe : ProbeFn) (addr : List Char) :
    ∀ fs : List (List Char), ((confirmLoop probe addr fs).2).all isProbeEvent = true := by
  intro fs
  induction fs with
  | nil => rfl
  | cons f fs ih =>
    unfold confirmLoop
    cases hp : probe addr f with
    | error e => rfl
    | ok c =>
      cases hcl : confirmLoop probe addr fs with
      | mk r evs =>
        rw [hcl] at ih
        cases r <;> simpa [isProbeEvent] using ih

theorem find?_filter_key (d : Dict) (k b : List Char) (h : b ≠ k) :
    List.find? (fun p => decide (p.1 = b)) (d.filter (fun p => decide (p.1 ≠ k)))
      = List.find? (fun p => decide (p.1 = b)) d := by
  induction d with
  | nil => rfl
  | cons p rest ih =>
    by_cases hpk : p.1 = k
    · rw [List.filter_cons_of_neg (by simp [hpk])]
      rw [List.find?_cons_of_neg _ (by
        simp only [decide_eq_true_eq]
        exact fun he => h (by rw [← he, hpk]))]
      exact ih
    · rw [List.filter_cons_of_pos (by simp [hpk])]
      by_cases hpb : p.1 = b
      · rw [List.find?_cons_of_pos _ (by simp [hpb]), List.find?_cons_of_pos _ (by simp [hpb])]
      · rw [List.find?_cons_of_neg _ (by simp [hpb]), List.find?_cons_of_neg _ (by simp [hpb])]
        exact ih

theorem dlookup_dinsert_self (k v : List Char) (d : Dict) :
    dlookup k (dinsert k v d) = some v := by
  unfold dlookup dinsert
  rw [List.find?_append]
  have h1 : List.find? (fun p => decide (p.1 = k)) (d.filter (fun p => decide (p.1 ≠ k)))
      = none := by
    apply List.find?_eq_none.mpr
    intro x hx
    have := (List.mem_filter.mp hx).2
    simp at this ⊢
    exact this
  rw [h1, List.find?_cons_of_pos _ (by simp)]
  rfl

theorem dlookup_dinsert_ne (k v b : List Char) (d : Dict) (h : b ≠ k) :
    dlookup b (dinsert k v d) = dlookup b d := by
  unfold dlookup dinsert
  rw [List.find?_append]
  have h2 : List.find? (fun p => decide (p.1 = b)) [(k, v)] = none := by
    rw [List.find?_cons_of_neg _ (by
      simp only [decide_eq_true_eq]
      exact fun he => h he.symm)]
    rfl
  rw [h2, find?_filter_key d k b h]
  cases List.find? (fun p => decide (p.1 = b)) d <;> rfl

theorem dkeys_dinsert_nodup {d : Dict} (h : (dkeys d).Nodup) (k v : List Char) :
    (dkeys (dinsert k v d)).Nodup := by
  unfold dinsert dkeys
  rw [List.map_append]
  apply List.nodup_append.mpr
  refine ⟨?_, List.nodup_singleton k, ?_⟩
  · exact ((List.filter_sublist d).map _).nodup h
  · intro x hx
    obtain ⟨p, hp, rfl⟩ := List.mem_map.mp hx
    have := (List.mem_filter.mp hp).2
    simp at this
    simpa using this

theorem recordsFor_expRec (p q : List Char) (addr : List Char) (a : List Char) :
    recordsFor [Event.exportAbi q, Event.record addr p] a
      = (if addr = a then [p] else []) := by
  by_cases h : addr = a <;> simp [recordsFor, List.filterMap_cons, h]

/-- Per-address effect summary: the trace carries no serialization
event, and the dictionary either is unchanged with no record event, or
gains exactly the single record `addr → p` demanded by `getPath`. -/
theorem processAddress_effects (probe : ProbeFn) (sample : SampleFn)
    (f0 : List Char) (rest : List (List Char)) (gp : Except String (List Char))
    (d : Dict) (addr : List Char) :
    serEvents (processAddress probe sample f0 rest gp d addr).2 = [] ∧
    (∀ d2 evs, processAddress probe sample f0 rest gp d addr = (Except.ok d2, evs) →
      (d2 = d ∧ ∀ a, recordsFor evs a = []) ∨
      (∃ p, gp = Except.ok p ∧ d2 = dinsert addr p d ∧
        ∀ a, recordsFor evs a = (if addr = a then [p] else []))) ∧
    (∀ e evs, processAddress probe sample f0 rest gp d addr = (Except.error e, evs) →
      ∀ a, recordsFor evs a = []) := by
  unfold processAddress
  cases hp : probe addr f0 with
  | error e =>
    dsimp only
    refine ⟨rfl, ?_, ?_⟩
    · intro d2 evs heq
      exact absurd (congrArg Prod.fst heq) (by simp)
    · intro e2 evs heq
      have hevs : evs = [Event.probeCall addr f0] := (congrArg Prod.snd heq).symm
      subst hevs
      intro a
      rfl
  | ok code =>
    dsimp only
    by_cases hr : rejectionCodes.contains code = true
    · rw [if_pos hr]
      refine ⟨rfl, ?_, ?_⟩
      · intro d2 evs heq
        left
        refine ⟨(by simpa using (congrArg Prod.fst heq).symm), ?_⟩
        have hevs : evs = [Event.probeCall addr f0] := (congrArg Prod.snd heq).symm
        subst hevs
        intro a
        rfl
      · intro e2 evs heq
        exact absurd (congrArg Prod.fst heq) (by simp)
    · rw [if_neg hr]
      cases hc : confirmChoice sample f0 rest with
      | none =>
        dsimp only
        refine ⟨rfl, ?_, ?_⟩
        · intro d2 evs heq
          exact absurd (congrArg Prod.fst heq) (by simp)
        · intro e2 evs heq
          have hevs : evs = [Event.probeCall addr f0] := (congrArg Prod.snd heq).symm
          subst hevs
          intro a
          rfl
      | some rfs =>
        dsimp only
        have hall : ((confirmLoop probe addr rfs).2).all isProbeEvent = true :=
          confirmLoop_all_probe probe addr rfs
        cases hcl : confirmLoop probe addr rfs with
        | mk r evsc =>
          rw [hcl] at hall
          cases r with
          | error e2 =>
            dsimp only
            refine ⟨?_, ?_, ?_⟩
            · have : serEvents (Event.probeCall addr f0 :: evsc) = serEvents evsc := rfl
              rw [this]
              exact serEvents_probe_nil hall
            · intro d2 evs heq
              exact absurd (congrArg Prod.fst heq) (by simp)
            · intro e3 evs heq
              have hevs : evs = Event.probeCall addr f0 :: evsc :=
                (congrArg Prod.snd heq).symm
              subst hevs
              intro a
              have : recordsFor (Event.probeCall addr f0 :: evsc) a = recordsFor evsc a := rfl
              rw [this]
              exact recordsFor_probe_nil hall a
          | ok cnt =>
            dsimp only
            by_cases hcnt : cnt = rfs.length
            · rw [if_pos hcnt]
              cases gp with
              | error eg =>
                dsimp only
                refine ⟨?_, ?_, ?_⟩
                · have : serEvents (Event.probeCall addr f0 :: evsc) = serEvents evsc := rfl
                  rw [this]
                  exact serEvents_probe_nil hall
                · intro d2 evs heq
                  exact absurd (congrArg Prod.fst heq) (by simp)
                · intro e3 evs heq
                  have hevs : evs = Event.probeCall addr f0 :: evsc :=
                    (congrArg Prod.snd heq).symm
                  subst hevs
                  intro a
                  have : recordsFor (Event.probeCall addr f0 :: evsc) a
                      = recordsFor evsc a := rfl
                  rw [this]
                  exact recordsFor_probe_nil hall a
              | ok p =>
                dsimp only
                refine ⟨?_, ?_, ?_⟩
                · have h1 : serEvents (Event.probeCall addr f0 :: evsc) = serEvents evsc := rfl
                  rw [serEvents_append, h1, serEvents_probe_nil hall]
                  rfl
                · intro d2 evs heq
                  right
                  refine ⟨p, rfl, (by simpa using (congrArg Prod.fst heq).symm), ?_⟩
                  have hevs : evs = Event.probeCall addr f0 :: evsc
                      ++ [Event.exportAbi p, Event.record addr p] :=
                    (congrArg Prod.snd heq).symm
                  subst hevs
                  intro a
                  have h2 : recordsFor (Event.probeCall addr f0 :: evsc) a
                      = recordsFor evsc a := rfl
                  rw [recordsFor_append, h2, recordsFor_probe_nil hall a, recordsFor_expRec]
                  rfl
                · intro e3 evs heq
                  exact absurd (congrArg Prod.fst heq) (by simp)
            · rw [if_neg hcnt]
              refine ⟨?_, ?_, ?_⟩
              · have : serEvents (Event.probeCall addr f0 :: evsc) = serEvents evsc := rfl
                rw [this]
                exact serEvents_probe_nil hall
              · intro d2 evs heq
                left
                refine ⟨(by simpa using (congrArg Prod.fst heq).symm), ?_⟩
                have hevs : evs = Event.probeCall addr f0 :: evsc :=
                  (congrArg Prod.snd heq).symm
                subst hevs
                intro a
                have : recordsFor (Event.probeCall addr f0 :: evsc) a = recordsFor evsc a := rfl
                rw [this]
                exact recordsFor_probe_nil hall a
              · intro e3 evs heq
                exact absurd (congrArg Prod.fst heq) (by simp)

/-- The run invariant: the keys of the relationship dictionary are
distinct, the trace holds no serialization event yet, and the dictionary
binds each address to the *last* path recorded for it in the trace. -/
def EngineInv (st : Dict × List Event) : Prop :=
  (dkeys st.1).Nodup ∧ serEvents st.2 = [] ∧
  ∀ a, dlookup a st.1 = (recordsFor st.2 a).getLast?

theorem processAddressesT_inv (probe : ProbeFn) (sample : SampleFn)
    (f0 : List Char) (rest : List (List Char)) (gp : Except String (List Char)) :
    ∀ (addrs : List (List Char)) (d : Dict) (evs : List Event),
    EngineInv (d, evs) →
    EngineInv (processAddressesT probe sample f0 rest gp addrs d evs) := by
  intro addrs
  induction addrs with
  | nil => intro d evs h; exact h
  | cons a more ih =>
    intro d evs h
    obtain ⟨hnd, hser, hlk⟩ := h
    unfold processAddressesT
    have heff := processAddress_effects probe sample f0 rest gp d a
    cases hpa : processAddress probe sample f0 rest gp d a with
    | mk r evs2 =>
      have hser2 : serEvents evs2 = [] := by
        have := heff.1
        rw [hpa] at this
        exact this
      cases r with
      | ok d2 =>
        apply ih
        rcases heff.2.1 d2 evs2 hpa with ⟨rfl, hrec⟩ | ⟨p, hgp, rfl, hrec⟩
        · refine ⟨hnd, ?_, ?_⟩
          · rw [serEvents_append, hser, hser2]
            rfl
          · intro b
            rw [recordsFor_append, hrec b, List.append_nil]
            exact hlk b
        · refine ⟨dkeys_dinsert_nodup hnd a p, ?_, ?_⟩
          · rw [serEvents_append, hser, hser2]
            rfl
          · intro b
            rw [recordsFor_append, hrec b]
            by_cases hb : a = b
            · subst hb
              rw [if_pos rfl, dlookup_dinsert_self, List.getLast?_append]
              rfl
            · rw [if_neg hb, List.append_nil,
                dlookup_dinsert_ne a p b d (fun he => hb he.symm)]
              exact hlk b
      | error e =>
        refine ⟨hnd, ?_, ?_⟩
        · rw [serEvents_append, hser, hser2]
          rfl
        · intro b
          rw [recordsFor_append, heff.2.2 e evs2 hpa b, List.append_nil]
          exact hlk b

theorem processDescriptorT_inv (probe : ProbeFn) (sample : SampleFn)
    (addrs : List (List Char)) (dir : List Char) (s : List Char)
    (st : Dict × List Event) (h : EngineInv st) :
    EngineInv (processDescriptorT probe sample addrs dir st s) := by
  unfold processDescriptorT
  cases descrHead dir s with
  | none => exact h
  | some x =>
    obtain ⟨f0, rest, gp⟩ := x
    exact processAddressesT_inv probe sample f0 rest gp addrs st.1 st.2 h

theorem foldDescriptors_inv (probe : ProbeFn) (sample : SampleFn)
    (addrs : List (List Char)) (dir : List Char) :
    ∀ (abis : List (List Char)) (st : Dict × List Event), EngineInv st →
    EngineInv (abis.foldl (processDescriptorT probe sample addrs dir) st) := by
  intro abis
  induction abis with
  | nil => intro st h; exact h
  | cons s more ih =>
    intro st h
    exact ih _ (processDescriptorT_inv probe sample addrs dir s st h)

/-! ### The claims about the matching decision -/

/-- C1: per (address, descriptor) pair, with a probe that returns codes
(raising nothing) — (1) a rejection code on the initial probe of the
first endpoint name rejects the pair at once, with exactly that single
probe issued and the relationship map untouched; (2) given the
confirmation sample `rfs`, the pair is accepted (its record event is
emitted and the map gains `address → path`) iff every confirmation
probe returns a code outside the rejection set, and on acceptance the
trace is exactly the initial probe, the confirmation probes, the export
and the record; (3) a single rejected confirmation probe rejects the
pair; (4) changing any single confirmation probe result to a rejection
code flips the pair from accepted to rejected. -/
theorem c1_pair_decision (pc : List Char → List Char → String) (sample : SampleFn)
    (f0 : List Char) (rest : List (List Char)) (p : List Char) (d : Dict) (addr : List Char) :
    (rejectionCodes.contains (pc addr f0) = true →
      processAddress (okProbe pc) sample f0 rest (Except.ok p) d addr
        = (Except.ok d, [Event.probeCall addr f0]))
    ∧
    (∀ rfs, confirmChoice sample f0 rest = some rfs →
      rejectionCodes.contains (pc addr f0) = false →
      ((Event.record addr p ∈ (processAddress (okProbe pc) sample f0 rest (Except.ok p) d addr).2
          ↔ ∀ f ∈ rfs, rejectionCodes.contains (pc addr f) = false)
       ∧ ((∀ f ∈ rfs, rejectionCodes.contains (pc addr f) = false) →
            processAddress (okProbe pc) sample f0 rest (Except.ok p) d addr
              = (Except.ok (dinsert addr p d),
                 Event.probeCall addr f0 :: rfs.map (Event.probeCall addr)
                   ++ [Event.exportAbi p, Event.record addr p]))
       ∧ (∀ g ∈ rfs, rejectionCodes.contains (pc addr g) = true →
            processAddress (okProbe pc) sample f0 rest (Except.ok p) d addr
              = (Except.ok d, Event.probeCall addr f0 :: rfs.map (Event.probeCall addr)))))
    ∧
    (∀ rfs, confirmChoice sample f0 rest = some rfs →
      ∀ g ∈ rfs, ∀ pc2 : List Char → List Char → String,
        (∀ a f, ¬(a = addr ∧ f = g) → pc2 a f = pc a f) →
        rejectionCodes.contains (pc2 addr g) = true →
        Event.record addr p ∉
          (processAddress (okProbe pc2) sample f0 rest (Except.ok p) d addr).2) := by
  refine ⟨fun h => pa_initial_reject pc sample f0 rest p d addr h, ?_, ?_⟩
  · intro rfs hc h0
    exact ⟨pa_accept_iff pc sample f0 rest p d addr rfs hc h0,
           fun hall => pa_accept_eq pc sample f0 rest p d addr rfs hc h0 hall,
           fun g hg hrej => pa_reject_eq pc sample f0 rest p d addr rfs hc h0 g hg hrej⟩
  · intro rfs hc g hg pc2 _ hrej2
    cases h0 : rejectionCodes.contains (pc2 addr f0) with
    | true =>
      rw [pa_initial_reject pc2 sample f0 rest p d addr h0]
      simp
    | false =>
      intro hmem
      have hall := (pa_accept_iff pc2 sample f0 rest p d addr rfs hc h0).mp hmem
      have := hall g hg
      rw [hrej2] at this
      exact Bool.noConfusion this

/-- C1 witness: a concrete pair.  With `pcW` answering `ok` for `f` and
`g` but `function not found` for `h`, the pair (addr `erdA`, endpoints
`f, g, h, i`) with confirmation sample `[g, h]` is rejected, and with
sample `[g]` it is accepted. -/
theorem c1_pair_decision_witness :
    processAddress
      (okProbe (fun _ f => if f = ['h'] then ("function not found") else ("ok")))
      sampleTake ['f'] [['g'], ['h']] (Except.ok ("P".data)) [] addrA
      = (Except.ok [], [Event.probeCall addrA ['f'], Event.probeCall addrA ['g'],
                        Event.probeCall addrA ['h']]) ∧
    processAddress
      (okProbe (fun _ f => if f = ['h'] then ("function not found") else ("ok")))
      sampleTake ['f'] [['g']] (Except.ok ("P".data)) [] addrA
      = (Except.ok (dinsert addrA ("P".data) []),
         [Event.probeCall addrA ['f'], Event.probeCall addrA ['g'],
          Event.exportAbi ("P".data), Event.record addrA ("P".data)]) := by
  constructor
  · have h := ((c1_pair_decision (fun _ f => if f = ['h'] then ("function not found") else ("ok"))
      sampleTake ['f'] [['g'], ['h']] ("P".data) [] addrA).2.1
      [['g'], ['h']] (by decide) (by decide)).2.2 ['h'] (by decide) (by decide)
    exact h
  · have h := ((c1_pair_decision (fun _ f => if f = ['h'] then ("function not found") else ("ok"))
      sampleTake ['f'] [['g']] ("P".data) [] addrA).2.1
      [['g']] (by decide) (by decide)).2.1 (by decide)
    exact h

/-- C2: the code's sampling guard is off by one.  For any admissible
`random.sample` (raising `ValueError` when the requested size exceeds
the population) and a descriptor with exactly five endpoint names whose
initial probe succeeds, line 360 evaluates
`random.sample(function_names[1:], 5)` on a four-element population:
the confirmation choice raises instead of probing the four remaining
endpoints, and the pair's processing ends with the `ValueError` (so the
outer `except` silently discards the whole descriptor).  With at most
four endpoints the remaining names are all used, and with at least six
endpoints five are sampled, as the claim says; only the exactly-five
case diverges. -/
theorem c2_exactly_five_endpoints_value_error (sample : SampleFn)
    (hs : ∀ pop k, pop.length < k → sample pop k = none)
    (pc : List Char → List Char → String) (f0 r1 r2 r3 r4 p : List Char)
    (d : Dict) (addr : List Char)
    (h0 : rejectionCodes.contains (pc addr f0) = false) :
    (confirmChoice sample f0 [r1, r2, r3, r4] = none ∧
     processAddress (okProbe pc) sample f0 [r1, r2, r3, r4] (Except.ok p) d addr
       = (Except.error ("ValueError"), [Event.probeCall addr f0])) ∧
    (∀ rest : List (List Char), rest.length ≤ 3 → confirmChoice sample f0 rest = some rest) ∧
    (∀ rest : List (List Char), 4 ≤ rest.length → confirmChoice sample f0 rest = sample rest 5) := by
  have hbug : confirmChoice sample f0 [r1, r2, r3, r4] = none := by
    have : ([r1, r2, r3, r4] : List (List Char)).length < 5 := by simp
    simp [confirmChoice, NUMBER_OF_MATCHES, hs [r1, r2, r3, r4] 5 this]
  refine ⟨⟨hbug, ?_⟩, ?_, ?_⟩
  · have h0m : pc addr f0 ∉ rejectionCodes := by simpa using h0
    simp [processAddress, okProbe, h0m, hbug]
  · intro rest hlen
    have : ¬ (rest.length + 1 > 4) := by omega
    simp [confirmChoice, NUMBER_OF_MATCHES, List.length_cons]
    omega
  · intro rest hlen
    have : rest.length + 1 > 4 := by omega
    simp [confirmChoice, NUMBER_OF_MATCHES, List.length_cons, this]

/-- C2 witness: the concrete failing input — five endpoint names
`f0 … f4`, the deterministic admissible sampler, and a probe answering
`ok` — ends in the modelled `ValueError`. -/
theorem c2_exactly_five_endpoints_value_error_witness :
    confirmChoice sampleTake ['a'] [['b'], ['c'], ['d'], ['e']] = none ∧
    processAddress (okProbe (fun _ _ => "ok")) sampleTake ['a'] [['b'], ['c'], ['d'], ['e']]
      (Except.ok ("P".data)) [] addrA
      = (Except.error ("ValueError"), [Event.probeCall addrA ['a']]) :=
  (c2_exactly_five_endpoints_value_error sampleTake sampleTake_valueError
    (fun _ _ => "ok") ['a'] ['b'] ['c'] ['d'] ['e'] ("P".data) [] addrA (by decide)).1

/-- C10: a descriptor with a single endpoint.  The remaining-endpoint
list is empty, so line 361 chooses the empty confirmation round, the
count test `0 = 0` holds vacuously, and any non-rejection code on the
single initial probe immediately records the match. -/
theorem c10_single_endpoint_accepts (pc : List Char → List Char → String)
    (sample : SampleFn) (f0 p : List Char) (d : Dict) (addr : List Char)
    (h0 : rejectionCodes.contains (pc addr f0) = false) :
    confirmChoice sample f0 [] = some [] ∧
    processAddress (okProbe pc) sample f0 [] (Except.ok p) d addr
      = (Except.ok (dinsert addr p d),
         [Event.probeCall addr f0, Event.exportAbi p, Event.record addr p]) := by
  have hc : confirmChoice sample f0 [] = some [] := rfl
  refine ⟨hc, ?_⟩
  have h := pa_accept_eq pc sample f0 [] p d addr [] hc h0 (by intro f hf; cases hf)
  simpa using h

/-- C10 witness: concrete single-endpoint acceptance. -/
theorem c10_single_endpoint_accepts_witness :
    processAddress (okProbe (fun _ _ => "ok")) sampleTake ['a'] []
      (Except.ok ("P".data)) [] addrA
      = (Except.ok (dinsert addrA ("P".data) []),
         [Event.probeCall addrA ['a'], Event.exportAbi ("P".data),
          Event.record addrA ("P".data)]) :=
  (c10_single_endpoint_accepts (fun _ _ => "ok") sampleTake ['a'] ("P".data) [] addrA
    (by decide)).2

/-- C3: the balanced-brace scan itself silently yields `None` for the
offset whose running count never returns to zero (second conjunct:
offset 14 of `c3bad`), exactly as the claim describes — but the blob
loop of `process_js_url` then passes that `None` to `repair_json`, whose
`re.sub` raises an uncaught `TypeError`: processing of the remaining
blobs does **not** continue, and even the already-extracted sibling blob
at offset 0 is lost because `process_js_url` aborts.  This refutes the
error-handling half of the claim on the code as written. -/
theorem c3_unbalanced_blob_aborts_run :
    extract_matching_braces_content c3bad 14 = none ∧
    extract_matching_braces_content c3bad 0 = some ("\x7b\x22buildInfo\x22x\x7d".data) ∧
    find_buildinfo_and_nearest_opening_brace c3bad = [(0, 1), (14, 15), (14, 16)] ∧
    processBlobs c3bad = Except.error ("TypeError") :=
  ⟨rfl, rfl, rfl, rfl⟩

/-- C6: on a hand-edited descriptor whose two `docs` arrays hold
freeform text (the first with embedded quotes and a double-escaped
newline), the primary parse fails, and the secondary repair pass
replaces every `"docs":[...]` span by a one-element array holding one
JSON string with quotes escaped and `\\n` collapsed to `\n`; the result
parses, and the fallback of lines 347–350 returns exactly that
structure. -/
theorem c6_docs_secondary_repair :
    parseJson (uescape inp6) = none ∧
    repair_broken_json inp6 = out6 ∧
    parseJson out6 = some val6 ∧
    loadAbi inp6 = some val6 :=
  ⟨rfl, rfl, rfl, rfl⟩

/-! ### Helper lemmas about the key-quoting scanner -/

theorem isSpaceChar_cases {c : Char} (h : isSpaceChar c = true) :
    c = ' ' ∨ c = '\t' ∨ c = '\n' ∨ c = '\r' ∨ c = '\x0b' ∨ c = '\x0c' := by
  simp only [isSpaceChar, Bool.or_eq_true, decide_eq_true_eq] at h
  tauto

theorem space_not_word {c : Char} (h : isSpaceChar c = true) : isWordChar c = false := by
  rcases isSpaceChar_cases h with rfl | rfl | rfl | rfl | rfl | rfl <;> decide

theorem space_not_identStart {c : Char} (h : isSpaceChar c = true) : isIdentStart c = false := by
  rcases isSpaceChar_cases h with rfl | rfl | rfl | rfl | rfl | rfl <;> decide

theorem qkGo_false_false_cons (prev : Bool) (c : Char) (rest : List Char)
    (h : (!prev && isIdentStart c && keyMatchAt (c :: rest)) = false) :
    qkGo prev false (c :: rest) = c :: qkGo (isWordChar c) false rest := by
  simp only [qkGo, h]
  rfl

theorem qkGo_match_cons (prev : Bool) (c : Char) (rest : List Char)
    (h : (!prev && isIdentStart c && keyMatchAt (c :: rest)) = true) :
    qkGo prev false (c :: rest) = '"' :: c :: qkGo true true rest := by
  simp only [qkGo, h]
  rfl

theorem qkGo_word_pass (w : List Char) (hw : ∀ c ∈ w, isWordChar c = true) (r : List Char) :
    qkGo true false (w ++ r) = w ++ qkGo true false r := by
  induction w with
  | nil => rfl
  | cons c w ih =>
    have hc : isWordChar c = true := hw c (List.mem_cons_self c w)
    rw [List.cons_append, qkGo_false_false_cons true c (w ++ r) (by simp), hc]
    exact congrArg (c :: ·) (ih (fun x hx => hw x (List.mem_cons_of_mem c hx)))

theorem qkGo_inRun_word (prev : Bool) (c : Char) (rest : List Char)
    (h : isWordChar c = true) :
    qkGo prev true (c :: rest) = c :: qkGo true true rest := by
  simp only [qkGo, h]
  rfl

theorem qkGo_inRun_exit (prev : Bool) (c : Char) (rest : List Char)
    (h : isWordChar c = false) :
    qkGo prev true (c :: rest) = '"' :: c :: qkGo false false rest := by
  simp only [qkGo, h]
  rfl

theorem qkGo_run_exit (w : List Char) (hw : ∀ c ∈ w, isWordChar c = true)
    (d : Char) (hd : isWordChar d = false) (r : List Char) :
    qkGo true true (w ++ d :: r) = w ++ '"' :: d :: qkGo false false r := by
  induction w with
  | nil => rw [List.nil_append, qkGo_inRun_exit true d r hd, List.nil_append]
  | cons c w ih =>
    have hc : isWordChar c = true := hw c (List.mem_cons_self c w)
    rw [List.cons_append, qkGo_inRun_word true c (w ++ d :: r) hc]
    exact congrArg (c :: ·) (ih (fun x hx => hw x (List.mem_cons_of_mem c hx)))

theorem keyMatchAt_words_colon (w ws rest : List Char)
    (hw : ∀ x ∈ w, isWordChar x = true) (hws : ∀ x ∈ ws, isSpaceChar x = true) :
    keyMatchAt (w ++ ws ++ ':' :: rest) = true := by
  have h1 : List.dropWhile isWordChar (w ++ (ws ++ ':' :: rest)) = ws ++ ':' :: rest := by
    rw [List.dropWhile_append_of_pos hw]
    cases ws with
    | nil =>
      rw [List.nil_append, List.dropWhile_cons, show isWordChar ':' = false from by decide]
      simp
    | cons s ws =>
      have hsw : isWordChar s = false := space_not_word (hws s (List.mem_cons_self s ws))
      rw [List.cons_append, List.dropWhile_cons, hsw]
      simp
  have h2 : List.dropWhile isSpaceChar (ws ++ ':' :: rest) = ':' :: rest := by
    rw [List.dropWhile_append_of_pos hws, List.dropWhile_cons,
      show isSpaceChar ':' = false from by decide]
    simp
  simp only [keyMatchAt, List.append_assoc]
  rw [h1, h2]
  rfl

theorem quoteKeys_wraps_bare_key (c : Char) (w ws rest : List Char)
    (hc : isIdentStart c = true)
    (hw : ∀ x ∈ c :: w, isWordChar x = true)
    (hws : ∀ x ∈ ws, isSpaceChar x = true) :
    qkGo false false ((c :: w) ++ ws ++ ':' :: rest)
      = '"' :: (c :: w) ++ '"' :: qkGo true false (ws ++ ':' :: rest) := by
  have hmatch : keyMatchAt ((c :: w) ++ ws ++ ':' :: rest) = true :=
    keyMatchAt_words_colon (c :: w) ws rest hw hws
  have hw' : ∀ x ∈ w, isWordChar x = true := fun x hx => hw x (List.mem_cons_of_mem c hx)
  have hcond : (!false && isIdentStart c && keyMatchAt (c :: (w ++ (ws ++ ':' :: rest)))) = true := by
    have : (c :: (w ++ (ws ++ ':' :: rest))) = ((c :: w) ++ ws ++ ':' :: rest) := by simp
    rw [this, hmatch, hc]
    rfl
  have step1 : qkGo false false ((c :: w) ++ ws ++ ':' :: rest)
      = '"' :: c :: qkGo true true (w ++ (ws ++ ':' :: rest)) := by
    rw [show ((c :: w) ++ ws ++ ':' :: rest) = c :: (w ++ (ws ++ ':' :: rest)) by simp]
    exact qkGo_match_cons false c (w ++ (ws ++ ':' :: rest)) hcond
  rw [step1]
  cases ws with
  | nil =>
    have hcolon : isWordChar ':' = false := by decide
    rw [List.nil_append, qkGo_run_exit w hw' ':' hcolon rest]
    have hpass : qkGo true false (':' :: rest) = ':' :: qkGo false false rest := by
      rw [qkGo_false_false_cons true ':' rest (by simp), show isWordChar ':' = false by decide]
    rw [hpass]
    simp
  | cons s ws2 =>
    have hs : isSpaceChar s = true := hws s (List.mem_cons_self s ws2)
    have hsw : isWordChar s = false := space_not_word hs
    have step2 : qkGo true true (w ++ (s :: ws2 ++ ':' :: rest))
        = w ++ '"' :: s :: qkGo false false (ws2 ++ ':' :: rest) := by
      rw [show (s :: ws2 ++ ':' :: rest) = s :: (ws2 ++ ':' :: rest) by simp]
      exact qkGo_run_exit w hw' s hsw (ws2 ++ ':' :: rest)
    rw [step2]
    have hpass : qkGo true false (s :: (ws2 ++ ':' :: rest))
        = s :: qkGo false false (ws2 ++ ':' :: rest) := by
      rw [qkGo_false_false_cons true s (ws2 ++ ':' :: rest) (by simp), hsw]
    simp [List.cons_append, hpass]

theorem quoteKeys_skips_quoted_ident (prev : Bool) (w rest : List Char)
    (hw : ∀ x ∈ w, isWordChar x = true) :
    qkGo prev false ('"' :: (w ++ '"' :: rest))
      = '"' :: (w ++ '"' :: qkGo false false rest) := by
  have hq : isWordChar '"' = false := by decide
  have hqi : isIdentStart '"' = false := by decide
  have step1 : qkGo prev false ('"' :: (w ++ '"' :: rest))
      = '"' :: qkGo false false (w ++ '"' :: rest) := by
    rw [qkGo_false_false_cons prev '"' (w ++ '"' :: rest) (by simp [hqi]), hq]
  rw [step1]
  cases w with
  | nil =>
    have : qkGo false false ('"' :: rest) = '"' :: qkGo false false rest := by
      rw [qkGo_false_false_cons false '"' rest (by simp [hqi]), hq]
    rw [List.nil_append, this, List.nil_append]
  | cons c w2 =>
    have hc : isWordChar c = true := hw c (List.mem_cons_self c w2)
    have hw2 : ∀ x ∈ w2, isWordChar x = true := fun x hx => hw x (List.mem_cons_of_mem c hx)
    have hnomatch : keyMatchAt (c :: (w2 ++ '"' :: rest)) = false := by
      have h1 : List.dropWhile isWordChar ((c :: w2) ++ '"' :: rest) = '"' :: rest := by
        rw [List.dropWhile_append_of_pos hw, List.dropWhile_cons, hq]
        simp
      have h2 : List.dropWhile isSpaceChar ('"' :: rest) = '"' :: rest := by
        rw [List.dropWhile_cons, show isSpaceChar '"' = false from by decide]
        simp
      simp only [keyMatchAt]
      rw [show (c :: (w2 ++ '"' :: rest)) = ((c :: w2) ++ '"' :: rest) by simp, h1, h2]
      rfl
    have step2 : qkGo false false (c :: (w2 ++ '"' :: rest))
        = c :: qkGo true false (w2 ++ '"' :: rest) := by
      rw [qkGo_false_false_cons false c (w2 ++ '"' :: rest) (by simp [hnomatch]), hc]
    have hpass : qkGo true false ('"' :: rest) = '"' :: qkGo false false rest := by
      rw [qkGo_false_false_cons true '"' rest (by simp [hqi]), hq]
    rw [List.cons_append, step2, qkGo_word_pass w2 hw2 ('"' :: rest), hpass]
    simp

/-- C4: the key-quoting step of `repair_json`.  First conjunct: a bare
identifier — an identifier-start character followed by word characters,
scanned at a word boundary — that is followed, through whitespace, by a
colon, is wrapped in double quotes, with scanning resuming after the
identifier.  Second conjunct: for any input, an identifier already
enclosed in double quotes passes through with its single pair of quotes
intact from any scanner state, because the closing quote blocks the
`\s*[:]` lookahead — so quotes are never added around it. -/
theorem c4_key_quoting :
    (∀ (c : Char) (w ws rest : List Char),
      isIdentStart c = true →
      (∀ x ∈ c :: w, isWordChar x = true) →
      (∀ x ∈ ws, isSpaceChar x = true) →
      quoteKeys ((c :: w) ++ ws ++ ':' :: rest)
        = '"' :: (c :: w) ++ '"' :: qkGo true false (ws ++ ':' :: rest))
    ∧
    (∀ (prev : Bool) (w rest : List Char),
      (∀ x ∈ w, isWordChar x = true) →
      qkGo prev false ('"' :: (w ++ '"' :: rest))
        = '"' :: (w ++ '"' :: qkGo false false rest)) :=
  ⟨fun c w ws rest hc hw hws => quoteKeys_wraps_bare_key c w ws rest hc hw hws,
   fun prev w rest hw => quoteKeys_skips_quoted_ident prev w rest hw⟩

/-- C4 witness: the bare key of `key:1` is wrapped, and the quoted key
of `"key":1` is left with exactly one pair of quotes. -/
theorem c4_key_quoting_witness :
    quoteKeys ("key:1".data) = ("\x22key\x22:1".data) ∧
    quoteKeys ("\x22key\x22:1".data) = ("\x22key\x22:1".data) := by
  constructor
  · have h := c4_key_quoting.1 'k' ['e','y'] [] ("1".data)
      (by decide) (by decide) (by decide)
    exact h.trans (by rfl)
  · have h := c4_key_quoting.2 false ['k','e','y'] (':' :: '1' :: []) (by decide)
    exact h.trans (by rfl)

theorem containsSub_self (pat : List Char) : containsSub pat pat = true := by
  cases pat with
  | nil => rfl
  | cons c r =>
    simp only [containsSub, List.tails_cons, List.any_cons, Bool.or_eq_true]
    left
    simp [List.isPrefixOf_iff_prefix]

/-! ### Identity lemmas for `repair_json` on guarded text -/

theorem containsSub_false_tails {pat l : List Char} (h : containsSub pat l = false) :
    ∀ t ∈ l.tails, pat.isPrefixOf t = false := by
  intro t ht
  cases hp : pat.isPrefixOf t with
  | false => rfl
  | true =>
    have : l.tails.any (fun t => pat.isPrefixOf t) = true :=
      List.any_eq_true.mpr ⟨t, ht, hp⟩
    rw [containsSub, this] at h
    exact Bool.noConfusion h

theorem noKeySeed_tails {l : List Char} (h : noKeySeed l = true) :
    ∀ t ∈ l.tails, keyStartAt t = false := by
  intro t ht
  unfold noKeySeed at h
  have h2 := List.all_eq_true.mp h t ht
  simpa using h2

theorem qkGo_id (l : List Char) (h : ∀ t ∈ l.tails, keyStartAt t = false) :
    ∀ prev, qkGo prev false l = l := by
  induction l with
  | nil => intro _; rfl
  | cons c rest ih =>
    intro prev
    have hc : keyStartAt (c :: rest) = false :=
      h (c :: rest) (by rw [List.tails_cons]; exact List.mem_cons_self _ _)
    have hc2 : (isIdentStart c && keyMatchAt (c :: rest)) = false := by
      simpa [keyStartAt] using hc
    have hcond : (!prev && isIdentStart c && keyMatchAt (c :: rest)) = false := by
      cases hA : isIdentStart c <;> cases hB : keyMatchAt (c :: rest) <;>
        simp [hA, hB] at hc2 ⊢
    rw [qkGo_false_false_cons prev c rest hcond]
    exact congrArg (c :: ·)
      (ih (fun t ht => h t (by rw [List.tails_cons]; exact List.mem_cons_of_mem _ ht))
        (isWordChar c))

theorem squoteToDquote_id (l : List Char) (h : '\x27' ∉ l) : squoteToDquote l = l := by
  induction l with
  | nil => rfl
  | cons c rest ih =>
    have hc : c ≠ '\x27' := fun he => h (he ▸ List.mem_cons_self c rest)
    simp only [squoteToDquote, List.map_cons, if_neg hc]
    exact congrArg (c :: ·) (ih (fun hm => h (List.mem_cons_of_mem c hm)))

theorem doubleBackslashes_id (l : List Char) (h : '\\' ∉ l) : doubleBackslashes l = l := by
  induction l with
  | nil => rfl
  | cons c rest ih =>
    have hc : c ≠ '\\' := fun he => h (he ▸ List.mem_cons_self c rest)
    simp only [doubleBackslashes, List.map_cons, List.flatten_cons, if_neg hc]
    exact congrArg (c :: ·) (ih (fun hm => h (List.mem_cons_of_mem c hm)))

theorem replaceTok2_cons2 (a b : Char) (r : List Char) (c d : Char) (rest : List Char)
    (h : (decide (c = a) && decide (d = b)) = false) :
    replaceTok2 a b r (c :: d :: rest) = c :: replaceTok2 a b r (d :: rest) := by
  simp only [replaceTok2, h]
  rfl

theorem replaceTok2_id (a b : Char) (r : List Char) :
    ∀ l : List Char, (∀ t ∈ l.tails, ([a, b] : List Char).isPrefixOf t = false) →
    replaceTok2 a b r l = l := by
  intro l
  induction l with
  | nil => intro _; rfl
  | cons c rest ih =>
    intro h
    cases rest with
    | nil => rfl
    | cons d rest2 =>
      have hp := h (c :: d :: rest2) (by rw [List.tails_cons]; exact List.mem_cons_self _ _)
      have hcd : (decide (c = a) && decide (d = b)) = false := by
        by_cases h1 : c = a
        · by_cases h2 : d = b
          · subst h1; subst h2
            simp [List.isPrefixOf] at hp
          · simp [h2]
        · simp [h1]
      rw [replaceTok2_cons2 a b r c d rest2 hcd]
      exact congrArg (c :: ·)
        (ih (fun t ht => h t (by rw [List.tails_cons]; exact List.mem_cons_of_mem _ ht)))

theorem repair_json_id (l : List Char)
    (hseed : noKeySeed l = true) (hq : '\x27' ∉ l) (hb : '\\' ∉ l)
    (h0 : containsSub ['!', '0'] l = false) (h1 : containsSub ['!', '1'] l = false) :
    repair_json l = l := by
  have hqk : quoteKeys l = l := qkGo_id l (noKeySeed_tails hseed) false
  unfold repair_json
  rw [hqk, squoteToDquote_id l hq, doubleBackslashes_id l hb,
    replaceTok2_id '!' '0' _ l (containsSub_false_tails h0),
    replaceTok2_id '!' '1' _ l (containsSub_false_tails h1)]

/-- C5 counterexample: `c5bad` is valid strict JSON with only
double-quoted keys and strings, no `!0`/`!1` tokens and no backslashes,
yet the primary repair corrupts it — the key-quoting regex fires on the
`a` before the colon inside the key string `a:b`, and the quote
replacement turns the apostrophe of `it's` into a double quote — so the
repaired text no longer parses at all, refuting the idempotence claim
as stated. -/
theorem c5_counterexample :
    parseJson c5bad = some c5badVal ∧
    containsSub ['!', '0'] c5bad = false ∧
    containsSub ['!', '1'] c5bad = false ∧
    ('\\' ∈ c5bad → False) ∧
    repair_json c5bad = ("\x7b\x22\x22a\x22:b\x22:\x22it\x22s\x22\x7d".data) ∧
    parseJson (repair_json c5bad) = none :=
  ⟨rfl, rfl, rfl, by decide, rfl, rfl⟩

/-- C5 (amended): the primary repair is the identity — and therefore
preserves the parsed structure — on valid strict JSON that additionally
contains no single-quote characters and in which no colon is preceded
(through whitespace) by a bare identifier (`noKeySeed`, which holds for
ordinary JSON where every colon follows a closing quote, and fails
exactly on colons inside string literals preceded by identifier text,
where the key-quoting regex misfires). -/
theorem c5_repair_preserves_guarded_json (l : List Char) (v : Json)
    (hp : parseJson l = some v)
    (hseed : noKeySeed l = true)
    (hq : '\x27' ∉ l) (hb : '\\' ∉ l)
    (h0 : containsSub ['!', '0'] l = false) (h1 : containsSub ['!', '1'] l = false) :
    repair_json l = l ∧ parseJson (repair_json l) = some v := by
  have hid := repair_json_id l hseed hq hb h0 h1
  exact ⟨hid, by rw [hid]; exact hp⟩

/-- C5 witness: a concrete ordinary JSON text is untouched by the
primary repair and parses to the same structure afterwards. -/
theorem c5_repair_preserves_guarded_json_witness :
    repair_json c5good = c5good ∧ parseJson (repair_json c5good) = some c5goodVal :=
  c5_repair_preserves_guarded_json c5good c5goodVal rfl (by rfl) (by decide) (by decide)
    rfl rfl

/-- C8: per-descriptor failure isolation.  First conjunct: a descriptor
whose parsing stage raises (unparseable JSON, missing/invalid endpoint
list, or zero endpoints — `descrHead` returns `none`) contributes
nothing: the run is the run without it, so every remaining descriptor
is still processed and the final serialization still happens.  Second
conjunct: for any batch split around any descriptor, the run equals the
prefix fold, then that descriptor's own (exception-swallowing) step,
then the suffix fold, then exactly one serialization of the final map —
an error inside one descriptor is confined to its own step.  Third
conjunct: concretely, a probe exception (`RPCError` on `boom`) aborts
only `badA`; the following `goodA` is still matched, recorded, and the
accumulated map is serialized at the end. -/
theorem c8_descriptor_errors_localized :
    (∀ (probe : ProbeFn) (sample : SampleFn) (addrs : List (List Char)) (dir : List Char)
       (pre suf : List (List Char)) (bad : List Char),
      descrHead dir bad = none →
      find_matching_contracts probe sample (pre ++ bad :: suf) addrs dir
        = find_matching_contracts probe sample (pre ++ suf) addrs dir) ∧
    (∀ (probe : ProbeFn) (sample : SampleFn) (addrs : List (List Char)) (dir : List Char)
       (pre suf : List (List Char)) (bad : List Char),
      find_matching_contracts probe sample (pre ++ bad :: suf) addrs dir
        = (let st := List.foldl (processDescriptorT probe sample addrs dir)
             (processDescriptorT probe sample addrs dir
               (List.foldl (processDescriptorT probe sample addrs dir) ([], []) pre) bad) suf
           (st.1, st.2 ++ [Event.serializeRel st.1]))) ∧
    (find_matching_contracts probeX sampleTake [badA, goodA] [addrA] dirD
      = ([(addrA, abiPath dirD ("Good".data))],
         [Event.probeCall addrA ("boom".data),
          Event.probeCall addrA ("g1".data),
          Event.exportAbi (abiPath dirD ("Good".data)),
          Event.record addrA (abiPath dirD ("Good".data)),
          Event.serializeRel [(addrA, abiPath dirD ("Good".data))]])) := by
  refine ⟨?_, ?_, ?_⟩
  · intro probe sample addrs dir pre suf bad hbad
    unfold find_matching_contracts
    have hstep : ∀ st, processDescriptorT probe sample addrs dir st bad = st := by
      intro st
      unfold processDescriptorT
      rw [hbad]
    rw [List.foldl_append, List.foldl_append, List.foldl_cons, hstep]
  · intro probe sample addrs dir pre suf bad
    unfold find_matching_contracts
    rw [List.foldl_append, List.foldl_cons]
  · rfl

/-- C8 witness: an unparseable descriptor text (`x`) is skipped and the
rest of the batch produces the same run as without it. -/
theorem c8_descriptor_errors_localized_witness :
    find_matching_contracts probeX sampleTake [('x' :: []), goodA] [addrA] dirD
      = find_matching_contracts probeX sampleTake [goodA] [addrA] dirD :=
  c8_descriptor_errors_localized.1 probeX sampleTake [addrA] dirD [] [goodA]
    ('x' :: []) (by rfl)

/-- C9: the relationship map of a run.  For every probe behaviour,
sampler, descriptor batch, address list and export directory:
(1) the trace contains exactly one serialization event — of the final
map — and it is the last event of the run; (2) the map holds at most
one path per address (its keys are distinct); (3) each address maps to
the *last* path recorded for it in the trace (last writer wins), and an
address with no record event is absent — the map is mutated only by
recording accepted matches; (4) the run starts from the empty map: the
empty batch serializes exactly the empty map. -/
theorem c9_relationship_map_invariants (probe : ProbeFn) (sample : SampleFn)
    (abis addrs : List (List Char)) (dir : List Char) :
    (serEvents (find_matching_contracts probe sample abis addrs dir).2
      = [Event.serializeRel (find_matching_contracts probe sample abis addrs dir).1]) ∧
    ((find_matching_contracts probe sample abis addrs dir).2).getLast?
      = some (Event.serializeRel (find_matching_contracts probe sample abis addrs dir).1) ∧
    (dkeys (find_matching_contracts probe sample abis addrs dir).1).Nodup ∧
    (∀ a, dlookup a (find_matching_contracts probe sample abis addrs dir).1
      = (recordsFor ((find_matching_contracts probe sample abis addrs dir).2) a).getLast?) ∧
    find_matching_contracts probe sample [] addrs dir = ([], [Event.serializeRel []]) := by
  have hinv : EngineInv
      (abis.foldl (processDescriptorT probe sample addrs dir) ([], [])) := by
    apply foldDescriptors_inv
    exact ⟨List.nodup_nil, rfl, fun a => rfl⟩
  obtain ⟨hnd, hser, hlk⟩ := hinv
  unfold find_matching_contracts
  refine ⟨?_, ?_, hnd, ?_, rfl⟩
  · rw [serEvents_append, hser]
    rfl
  · rw [List.getLast?_append]
    rfl
  · intro a
    rw [recordsFor_append]
    have h2 : recordsFor [Event.serializeRel
        (abis.foldl (processDescriptorT probe sample addrs dir) ([], [])).1] a = [] := rfl
    rw [h2, List.append_nil]
    exact hlk a

/-- C7 (amended): `extract_addresses` returns exactly the address-shaped
regex occurrences, in order and with duplicates preserved, except those
that *contain* the zero-address literal of line 225 as a substring — in
particular the placeholder itself is never returned — rather than
exactly those equal to the placeholder. -/
theorem c7_addresses_filtered_by_containment :
    (∀ l a, a ∈ extract_addresses l → containsSub zeroMarker a = false) ∧
    (∀ l, zeroMarker ∉ extract_addresses l) ∧
    (∀ l a, containsSub zeroMarker a = false →
      List.count a (extract_addresses l) = List.count a (findAddrs l)) ∧
    (∀ l a, a ∈ findAddrs l → containsSub zeroMarker a = false →
      a ∈ extract_addresses l) := by
  refine ⟨?_, ?_, ?_, ?_⟩
  · intro l a h
    have := (List.mem_filter.mp h).2
    simpa using this
  · intro l h
    have := (List.mem_filter.mp h).2
    rw [containsSub_self] at this
    exact Bool.noConfusion this
  · intro l a h
    exact List.count_filter (by simp [h])
  · intro l a h1 h2
    exact List.mem_filter.mpr ⟨h1, by simp [h2]⟩

/-- C7 witness: a text with two occurrences of the same ordinary address
token keeps both (count 2), and the placeholder is absent from the
output even when the zero-address literal occurs in the text. -/
theorem c7_addresses_filtered_by_containment_witness :
    List.count ("erd1qqqqqqqqqabc".data)
        (extract_addresses (("erd1qqqqqqqqqabc x erd1qqqqqqqqqabc ".data) ++ zeroMarker))
      = List.count ("erd1qqqqqqqqqabc".data)
        (findAddrs (("erd1qqqqqqqqqabc x erd1qqqqqqqqqabc ".data) ++ zeroMarker)) ∧
    zeroMarker ∉ extract_addresses (("erd1qqqqqqqqqabc x erd1qqqqqqqqqabc ".data) ++ zeroMarker) ∧
    ("erd1qqqqqqqqqabc".data) ∈
      extract_addresses (("erd1qqqqqqqqqabc x erd1qqqqqqqqqabc ".data) ++ zeroMarker) :=
  ⟨c7_addresses_filtered_by_containment.2.2.1 _ _ (by decide),
   c7_addresses_filtered_by_containment.2.1 _,
   c7_addresses_filtered_by_containment.2.2.2 _ _ (by decide) (by decide)⟩

/-- C7 counterexample: the token `zplus` (the zero-address filter
literal extended by one alphanumeric character) is an address-shaped
occurrence different from the placeholder, yet `extract_addresses`
drops it, because line 225 filters by substring containment rather than
equality — refuting "the only occurrences excluded are those equal to
the placeholder address". -/
theorem c7_counterexample_containment :
    findAddrs zplus = [zplus] ∧ zplus ≠ zeroMarker ∧ extract_addresses zplus = [] :=
  ⟨rfl, by decide, rfl⟩

end ABIExtractor
